import Mathlib

/-
Verification of the state-graph execution model of the AMLD2025-Visium
multi-agent workflow (notebook `S2 - Building a Multi-Agent System.ipynb`).

The notebook defines the data model (`State`, `ResearchTask`,
`OrchestratorDecision`), the `orchestrator_node` function, and the build
sequence of the graph; the generic engine pieces it uses (the
`add_messages` reducer, the `StateGraph` builder and the executor) live in
the LangGraph library, outside this repository, and are modelled here from
the specification document.
-/

set_option autoImplicit false

namespace AMLD

/-- A message record.  The source stores `langchain` `BaseMessage` values in
`State.messages`; the merge policy only looks at the unique id of each
record, so a message is modelled as an id paired with its text content. -/
structure Msg where
  id : Nat
  content : String
deriving DecidableEq, Repr

/-- One upsert step of the messages reducer: if the incoming message's id
is already present in `cur`, replace the stored record in place (keeping
its position); otherwise append the incoming record at the end. -/
def upsert (cur : List Msg) (m : Msg) : List Msg :=
  if cur.any (fun c => c.id == m.id) then
    cur.map (fun c => if c.id == m.id then m else c)
  else
    cur ++ [m]

/-- Modelled from the spec: the `add_messages` reducer from
`langgraph.graph.message`, named in the `State.messages` field declaration
of the source, is library code outside this repository.  Per the spec it is
`appendOrReplaceById`: for each item of `incoming` in order, if its id
matches an item already in `current`, replace that item in place; otherwise
append it at the end. -/
def add_messages (current incoming : List Msg) : List Msg :=
  incoming.foldl upsert current

/-- The `analyses` reducer.  The source annotates `State.analyses` with
`operator.add`, which on Python lists is concatenation: `current` followed
by `incoming`, verbatim, no deduplication. -/
def concat (current incoming : List String) : List String :=
  current ++ incoming

/-- Graph state for the financial analysis workflow (source `State`
dataclass): `messages` merged with `add_messages`, `analyses` merged with
`operator.add`; both default to the empty list. -/
structure State where
  messages : List Msg
  analyses : List String
deriving DecidableEq, Repr

/-- Task for the financial analysis workflow (source `ResearchTask`
pydantic model). -/
structure ResearchTask where
  topic : String
  description : String
deriving DecidableEq, Repr

/-- Structured output of the CIA model (source `OrchestratorDecision`
pydantic model): `research_tasks` is declared `list[ResearchTask] | None`,
hence an `Option` here. -/
structure OrchestratorDecision where
  response : String
  in_scope : Bool
  research_tasks : Option (List ResearchTask)
deriving DecidableEq, Repr

/-- A dynamic dispatch (source `Send("worker", task)`): a destination node
name together with the task-scoped payload handed to that branch. -/
structure Send where
  dest : String
  task : ResearchTask
deriving DecidableEq, Repr

/-- Routing directive carried by a `Command` (spec section 9: model the
`goto` value as a tagged variant).  `terminal` is the source's `END`,
`single` a plain node name, `fanOut` a list of `Send` dispatches. -/
inductive Routing where
  | terminal : Routing
  | single (dest : String) : Routing
  | fanOut (sends : List Send) : Routing
deriving DecidableEq, Repr

/-- A partial state update (the `update` dictionary of a source `Command`):
values to merge into each field; a field the node does not touch is the
empty list, which is neutral for both reducers. -/
structure Update where
  messages : List Msg
  analyses : List String
deriving DecidableEq, Repr

/-- A node's return value (source `langgraph.types.Command`): a partial
state update plus a routing directive. -/
structure Command where
  update : Update
  routing : Routing
deriving DecidableEq, Repr

/-- Python run-time errors that the source `orchestrator_node` body can
raise: `state.messages[-1]` raises `IndexError` on an empty list, and
iterating `None` in the `goto` list comprehension raises `TypeError`. -/
inductive PyError where
  | indexError : PyError
  | typeError : PyError
deriving DecidableEq, Repr

/-- The orchestrator node of the source.  Its body reads
`state.messages[-1]` (an `IndexError` when `messages` is empty), invokes
the external CIA model — modelled by passing its structured output
`cia_output` as an argument — and returns
`Command(update={"messages": cia_output.response}, goto=[Send("worker", t)
for t in cia_output.research_tasks] if cia_output.in_scope else END)`.
The bare response string in the update is coerced by the engine to a fresh
message record; the engine-assigned id is the `fresh` argument. -/
def orchestrator_node (state : State) (cia_output : OrchestratorDecision)
    (fresh : Nat) : Except PyError Command :=
  if state.messages.isEmpty then
    Except.error PyError.indexError
  else
    match (if cia_output.in_scope then
             match cia_output.research_tasks with
             | some tasks =>
                 Except.ok (Routing.fanOut (tasks.map (fun t => ⟨"worker", t⟩)))
             | none => Except.error PyError.typeError
           else
             Except.ok Routing.terminal : Except PyError Routing) with
    | Except.error e => Except.error e
    | Except.ok r =>
        Except.ok ⟨⟨[⟨fresh, cia_output.response⟩], []⟩, r⟩

/-- Graph construction errors (spec section 7). -/
inductive BuildError where
  | duplicateNode (name : String) : BuildError
  | unknownNode (name : String) : BuildError
  | missingEntry : BuildError
deriving DecidableEq, Repr

/-- Modelled from the spec: the graph builder (`langgraph.graph.StateGraph`,
used but not implemented by the source).  It holds the registered nodes in
registration order and the declared entry point.  The node payload is an
arbitrary type `α`: the builder never inspects the functions it stores. -/
structure StateGraph (α : Type) where
  nodes : List (String × α)
  entry : Option String
deriving Repr

/-- A freshly constructed builder (source `StateGraph(State)`): no nodes,
no entry point. -/
def StateGraph.new (α : Type) : StateGraph α := ⟨[], none⟩

/-- Modelled from the spec: `addNode(name, fn)` fails with
`DuplicateNodeError` if `name` is already registered, and otherwise
registers the node. -/
def add_node {α : Type} (b : StateGraph α) (name : String) (fn : α) :
    Except BuildError (StateGraph α) :=
  if b.nodes.any (fun p => p.fst == name) then
    Except.error (BuildError.duplicateNode name)
  else
    Except.ok ⟨b.nodes ++ [(name, fn)], b.entry⟩

/-- Modelled from the spec (section 2) and the source's build order: the
source calls `graph_builder.set_entry_point("orchestrator")` before any
`add_node` call, so recording the entry point cannot itself check
registration; it only records the name.  Validation that the entry point
exists happens in `compile` (spec section 2: built and then "compiled
(validated: entry point exists ...)"). -/
def set_entry_point {α : Type} (b : StateGraph α) (name : String) :
    Except BuildError (StateGraph α) :=
  Except.ok ⟨b.nodes, some name⟩

/-- An immutable compiled graph: the registered nodes plus a validated
entry point. -/
structure CompiledGraph (α : Type) where
  nodes : List (String × α)
  entry : String
deriving Repr

/-- Modelled from the spec: `compile()` validates that the entry point is
set and registered and returns the immutable graph definition. -/
def compile {α : Type} (b : StateGraph α) :
    Except BuildError (CompiledGraph α) :=
  match b.entry with
  | none => Except.error BuildError.missingEntry
  | some e =>
      if b.nodes.any (fun p => p.fst == e) then
        Except.ok ⟨b.nodes, e⟩
      else
        Except.error (BuildError.unknownNode e)

/-- The repository's build sequence (notebook cell "Building the Workflow
Graph"): create the builder, set the entry point to `"orchestrator"`,
register the `"orchestrator"` node, compile.  The registered function value
is irrelevant to construction, so the node payload is `Unit`. -/
def notebookBuild : Except BuildError (CompiledGraph Unit) :=
  set_entry_point (StateGraph.new Unit) "orchestrator" >>= fun b =>
  add_node b "orchestrator" () >>= fun b2 =>
  compile b2

/-- A registered node function: either a state node (input is the full
shared `State`) or a task node (input is the fan-out payload). -/
inductive NodeFn where
  | stateFn (f : State → Command) : NodeFn
  | taskFn (f : ResearchTask → Command) : NodeFn

/-- Look a node up by name in a compiled graph. -/
def lookupNode {α : Type} (g : CompiledGraph α) (n : String) : Option α :=
  (g.nodes.find? (fun p => p.fst == n)).map Prod.snd

/-- One pending branch of the executor: a state node awaiting the shared
state, or a task node with its own payload. -/
inductive Branch where
  | stateBranch (node : String) : Branch
  | taskBranch (node : String) (task : ResearchTask) : Branch
deriving DecidableEq, Repr

/-- Merge one command's update into the state, each field through its own
reducer (spec section 4.4, Merge). -/
def mergeUpdate (s : State) (u : Update) : State :=
  ⟨add_messages s.messages u.messages, concat s.analyses u.analyses⟩

/-- Merge a step's collected command updates into the state, in branch
order (spec section 4.4: merge order across branches follows branch spawn
order). -/
def mergeAll (s : State) (cmds : List Command) : State :=
  cmds.foldl (fun st c => mergeUpdate st c.update) s

/-- Modelled from the spec: invoke one branch's node with its designated
input — the current shared state for a state branch, the branch's own
payload for a task branch.  `none` models an unresolvable branch (unknown
node or wrong node kind). -/
def invoke (g : CompiledGraph NodeFn) (s : State) : Branch → Option Command
  | Branch.stateBranch n =>
      match lookupNode g n with
      | some (NodeFn.stateFn f) => some (f s)
      | _ => none
  | Branch.taskBranch n t =>
      match lookupNode g n with
      | some (NodeFn.taskFn f) => some (f t)
      | _ => none

/-- Invoke every active branch of a step, collecting the commands. -/
def invokeAll (g : CompiledGraph NodeFn) (s : State) :
    List Branch → Option (List Command)
  | [] => some []
  | b :: bs =>
      match invoke g s b, invokeAll g s bs with
      | some c, some cs => some (c :: cs)
      | _, _ => none

/-- Branches spawned by one routing directive (spec section 4.4, Route):
terminal closes the branch, a single destination becomes one state branch,
a fan-out list becomes one task branch per `Send`. -/
def routeOne : Routing → List Branch
  | Routing.terminal => []
  | Routing.single d => [Branch.stateBranch d]
  | Routing.fanOut sends => sends.map (fun sd => Branch.taskBranch sd.dest sd.task)

/-- Whether a branch is the state branch of the given node name. -/
def isStateBranchFor (n : String) : Branch → Bool
  | Branch.stateBranch m => m == n
  | Branch.taskBranch _ _ => false

/-- Add one spawned branch to the accumulating next-step branch list.
Task branches are always appended; a state branch is appended only if the
same node is not already scheduled — this realizes the spec's join policy
(section 4.4): because every sibling of one dispatch runs in the same Step,
admitting their common successor exactly once per step schedules the join
node only after all siblings have completed and been merged. -/
def addBranch (acc : List Branch) (b : Branch) : List Branch :=
  match b with
  | Branch.stateBranch n =>
      if acc.any (isStateBranchFor n) then acc else acc ++ [b]
  | Branch.taskBranch _ _ => acc ++ [b]

/-- The branches of the next step, from the routing directives of the
current step's commands, in branch spawn order. -/
def routeAll (cmds : List Command) : List Branch :=
  cmds.foldl (fun acc c => (routeOne c.routing).foldl addBranch acc) []

/-- One Step→Merge→Route round of the executor (spec section 4.4): invoke
every active branch, merge all updates, compute the next branch set. -/
def stepRun (g : CompiledGraph NodeFn) (s : State) (branches : List Branch) :
    Option (State × List Branch) :=
  match invokeAll g s branches with
  | none => none
  | some cmds => some (mergeAll s cmds, routeAll cmds)

/-- Modelled from the spec: the executor's main loop — repeat
Step→Merge→Route until the active branch set is empty; the run's result is
the final state.  `fuel` bounds the number of rounds (the source topology
terminates in at most three). -/
def runLoop (g : CompiledGraph NodeFn) :
    Nat → State → List Branch → Option State
  | _, s, [] => some s
  | 0, _, _ :: _ => none
  | fuel + 1, s, b :: bs =>
      match stepRun g s (b :: bs) with
      | none => none
      | some (s', next) => runLoop g fuel s' next

/-- The schema's declared initial values (source `State` dataclass
defaults: both fields default to the empty list). -/
def schemaInitialState : State := ⟨[], []⟩

/-- Modelled from the spec (section 4.4, Start): initialize the state from
the schema's declared initial values merged — through the ordinary field
reducers — with the caller-supplied seed values. -/
def initState (seed : Update) : State :=
  mergeUpdate schemaInitialState seed

/-- Modelled from the spec: run a compiled graph — initialize the state
from the seed, then iterate from the entry node. -/
def runWorkflow (g : CompiledGraph NodeFn) (fuel : Nat) (seed : Update) :
    Option State :=
  runLoop g fuel (initState seed) [Branch.stateBranch g.entry]

/-- Replacement by one incoming message: `c` is replaced when its id
matches `m`'s id. -/
def repl (m c : Msg) : Msg :=
  if c.id == m.id then m else c

/-- Sequential replacement by a whole incoming batch: the value a stored
record evolves to while the batch is folded over it. -/
def substAll (inc : List Msg) (c : Msg) : Msg :=
  inc.foldl (fun x n => if x.id == n.id then n else x) c

/-- Replacement by the first matching incoming message, used to state the
closed form of the reducer. -/
def subst (inc : List Msg) (c : Msg) : Msg :=
  (inc.find? (fun m => m.id == c.id)).getD c

theorem repl_id (m c : Msg) : (repl m c).id = c.id := by
  unfold repl
  split
  · next h => exact (beq_iff_eq.mp h).symm
  · rfl

theorem substAll_nil (c : Msg) : substAll [] c = c := rfl

theorem substAll_cons (m : Msg) (rest : List Msg) (c : Msg) :
    substAll (m :: rest) c = substAll rest (repl m c) := rfl

theorem upsert_of_any (cur : List Msg) (m : Msg)
    (h : cur.any (fun c => c.id == m.id) = true) :
    upsert cur m = cur.map (repl m) := by
  unfold upsert repl
  simp [h]

theorem upsert_of_not_any (cur : List Msg) (m : Msg)
    (h : cur.any (fun c => c.id == m.id) = false) :
    upsert cur m = cur ++ [m] := by
  unfold upsert
  simp [h]

theorem any_map_repl (cur : List Msg) (m : Msg) (x : Nat) :
    (cur.map (repl m)).any (fun c => c.id == x) =
      cur.any (fun c => c.id == x) := by
  induction cur with
  | nil => rfl
  | cons c rest ih => simp [List.any_cons, repl_id, ih]

theorem any_upsert_self (cur : List Msg) (m : Msg) :
    (upsert cur m).any (fun c => c.id == m.id) = true := by
  cases h : cur.any (fun c => c.id == m.id) with
  | true => rw [upsert_of_any cur m h, any_map_repl, h]
  | false =>
      rw [upsert_of_not_any cur m h]
      simp

theorem any_upsert_mono (cur : List Msg) (m : Msg) (x : Nat)
    (h : cur.any (fun c => c.id == x) = true) :
    (upsert cur m).any (fun c => c.id == x) = true := by
  cases hm : cur.any (fun c => c.id == m.id) with
  | true => rw [upsert_of_any cur m hm, any_map_repl]; exact h
  | false => rw [upsert_of_not_any cur m hm]; simp [List.any_append, h]

theorem add_messages_nil (cur : List Msg) : add_messages cur [] = cur := rfl

theorem add_messages_cons (cur : List Msg) (m : Msg) (rest : List Msg) :
    add_messages cur (m :: rest) = add_messages (upsert cur m) rest := rfl

theorem any_add_messages_mono (inc : List Msg) (cur : List Msg) (x : Nat)
    (h : cur.any (fun c => c.id == x) = true) :
    (add_messages cur inc).any (fun c => c.id == x) = true := by
  induction inc generalizing cur with
  | nil => exact h
  | cons m rest ih =>
      rw [add_messages_cons]
      exact ih (upsert cur m) (any_upsert_mono cur m x h)

theorem any_add_messages_of_mem (inc : List Msg) (cur : List Msg) (m : Msg)
    (h : m ∈ inc) :
    (add_messages cur inc).any (fun c => c.id == m.id) = true := by
  induction inc generalizing cur with
  | nil => cases h
  | cons n rest ih =>
      rw [add_messages_cons]
      rcases List.mem_cons.mp h with rfl | hmem
      · exact any_add_messages_mono rest (upsert cur m) m.id
          (any_upsert_self cur m)
      · exact ih (upsert cur n) hmem

theorem map_ext {α β : Type} (f g : α → β) (h : ∀ a, f a = g a)
    (l : List α) : l.map f = l.map g := by
  rw [funext h]

theorem map_fix {α : Type} (f : α → α) :
    ∀ l : List α, (∀ c ∈ l, f c = c) → l.map f = l := by
  intro l h
  induction l with
  | nil => rfl
  | cons a t ih =>
      rw [List.map_cons, h a (List.mem_cons_self a t),
        ih (fun c hc => h c (List.mem_cons_of_mem a hc))]

theorem add_messages_eq_map (inc : List Msg) :
    ∀ cur : List Msg,
      (∀ m ∈ inc, cur.any (fun c => c.id == m.id) = true) →
      add_messages cur inc = cur.map (substAll inc) := by
  induction inc with
  | nil =>
      intro cur _
      rw [add_messages_nil, map_ext (substAll []) (fun c => c) substAll_nil cur,
        List.map_id']
  | cons m rest ih =>
      intro cur h
      rw [add_messages_cons, upsert_of_any cur m (h m (List.mem_cons_self m rest)),
        ih (cur.map (repl m))
          (fun n hn => by
            rw [any_map_repl]
            exact h n (List.mem_cons_of_mem m hn)),
        List.map_map]
      exact map_ext _ _ (fun c => rfl) cur

theorem upsert_unique_at (cur : List Msg) (m : Msg) :
    ∀ a ∈ upsert cur m, a.id = m.id → a = m := by
  intro a ha hid
  unfold upsert at ha
  split at ha
  · next hany =>
      rcases List.mem_map.mp ha with ⟨b, _, rfl⟩
      cases hb : b.id == m.id with
      | true => simp [hb]
      | false =>
          rw [if_neg (by simp [hb])] at hid ⊢
          exact absurd (beq_iff_eq.mpr hid) (by simp [hb])
  · next hany =>
      rcases List.mem_append.mp ha with hc | hm
      · exact absurd
          (show (cur.any fun c => c.id == m.id) = true from
            List.any_eq_true.mpr ⟨a, hc, beq_iff_eq.mpr hid⟩) hany
      · simpa using hm

theorem upsert_keep_others (cur : List Msg) (m : Msg) (x : Nat) (v : Msg)
    (hx : (m.id == x) = false)
    (h : ∀ a ∈ cur, a.id = x → a = v) :
    ∀ a ∈ upsert cur m, a.id = x → a = v := by
  intro a ha hid
  unfold upsert at ha
  split at ha
  · next hany =>
      rcases List.mem_map.mp ha with ⟨b, hb, rfl⟩
      cases hb2 : b.id == m.id with
      | true =>
          rw [if_pos (by simp [hb2])] at hid
          exact absurd (beq_iff_eq.mpr hid) (by simp [hx])
      | false =>
          rw [if_neg (by simp [hb2])] at hid ⊢
          exact h b hb hid
  · next hany =>
      rcases List.mem_append.mp ha with hc | hm
      · exact h a hc hid
      · have hm' : a = m := by simpa using hm
        subst hm'
        exact absurd (beq_iff_eq.mpr hid) (by simp [hx])

theorem add_messages_fix_at (rest : List Msg) :
    ∀ (cur : List Msg) (x : Nat) (v : Msg),
      cur.any (fun c => c.id == x) = true → v.id = x →
      (∀ a ∈ cur, a.id = x → a = v) →
      ∀ c ∈ add_messages cur rest, c.id = x → c = substAll rest v := by
  induction rest with
  | nil =>
      intro cur x v _ _ huniq c hc hid
      exact huniq c hc hid
  | cons n rest' ih =>
      intro cur x v hany hvid huniq c hc hid
      rw [add_messages_cons] at hc
      rw [substAll_cons]
      cases hn : n.id == x with
      | true =>
          have hnx : n.id = x := beq_iff_eq.mp hn
          have hrepl : repl n v = n := by
            simp [repl, beq_iff_eq.mpr (hvid.trans hnx.symm)]
          rw [hrepl]
          exact ih (upsert cur n) x n (any_upsert_mono cur n x hany) hnx
            (fun a ha haid =>
              upsert_unique_at cur n a ha (haid.trans hnx.symm))
            c hc hid
      | false =>
          have hrepl : repl n v = v := by
            have : (v.id == n.id) = false := by
              rw [beq_eq_false_iff_ne]
              intro hvn
              rw [hvid] at hvn
              exact absurd (beq_iff_eq.mpr hvn.symm) (by simp [hn])
            simp [repl, this]
          rw [hrepl]
          exact ih (upsert cur n) x v (any_upsert_mono cur n x hany) hvid
            (upsert_keep_others cur n x v hn huniq) c hc hid

theorem substAll_fixpoint (inc : List Msg) :
    ∀ cur : List Msg, ∀ c ∈ add_messages cur inc, substAll inc c = c := by
  induction inc with
  | nil => intro cur c _; rfl
  | cons m rest ih =>
      intro cur c hc
      rw [add_messages_cons] at hc
      rw [substAll_cons]
      cases hcm : c.id == m.id with
      | true =>
          have hrepl : repl m c = m := by simp [repl, hcm]
          rw [hrepl]
          exact (add_messages_fix_at rest (upsert cur m) m.id m
            (any_upsert_self cur m) rfl
            (fun a ha haid => upsert_unique_at cur m a ha haid)
            c hc (beq_iff_eq.mp hcm)).symm
      | false =>
          have hrepl : repl m c = c := by simp [repl, hcm]
          rw [hrepl]
          exact ih (upsert cur m) c hc

theorem add_messages_idem (A B : List Msg) :
    add_messages (add_messages A B) B = add_messages A B := by
  rw [add_messages_eq_map B (add_messages A B)
    (fun m hm => any_add_messages_of_mem B A m hm)]
  exact map_fix (substAll B) (add_messages A B)
    (fun c hc => substAll_fixpoint B A c hc)

theorem map_ext_mem {α β : Type} (f g : α → β) :
    ∀ l : List α, (∀ a ∈ l, f a = g a) → l.map f = l.map g := by
  intro l h
  induction l with
  | nil => rfl
  | cons a t ih =>
      rw [List.map_cons, List.map_cons, h a (List.mem_cons_self a t),
        ih (fun c hc => h c (List.mem_cons_of_mem a hc))]

theorem filter_ext_mem {α : Type} (p q : α → Bool) :
    ∀ l : List α, (∀ a ∈ l, p a = q a) → l.filter p = l.filter q := by
  intro l h
  induction l with
  | nil => rfl
  | cons a t ih =>
      rw [List.filter_cons, List.filter_cons, h a (List.mem_cons_self a t),
        ih (fun c hc => h c (List.mem_cons_of_mem a hc))]

theorem beq_symm_true {a b : Nat} (h : (a == b) = true) : (b == a) = true :=
  beq_iff_eq.mpr (beq_iff_eq.mp h).symm

theorem beq_symm_false {a b : Nat} (h : (a == b) = false) : (b == a) = false := by
  rw [beq_eq_false_iff_ne] at h ⊢
  exact fun he => h he.symm

theorem subst_nil (c : Msg) : subst [] c = c := rfl

theorem subst_absent (rest : List Msg) (c : Msg)
    (h : ∀ n ∈ rest, (n.id == c.id) = false) : subst rest c = c := by
  unfold subst
  rw [List.find?_eq_none.mpr (fun n hn => by simp [h n hn])]
  rfl

theorem subst_cons_pos (m : Msg) (rest : List Msg) (c : Msg)
    (h : (m.id == c.id) = true) : subst (m :: rest) c = m := by
  unfold subst
  simp [List.find?, h]

theorem subst_cons_neg (m : Msg) (rest : List Msg) (c : Msg)
    (h : (m.id == c.id) = false) : subst (m :: rest) c = subst rest c := by
  unfold subst
  simp [List.find?, h]

theorem add_messages_closed (inc : List Msg) :
    ∀ cur : List Msg, (inc.map Msg.id).Nodup →
      add_messages cur inc =
        cur.map (subst inc) ++
          inc.filter (fun m => !(cur.any (fun c => c.id == m.id))) := by
  induction inc with
  | nil =>
      intro cur _
      rw [add_messages_nil, List.filter_nil, List.append_nil,
        map_ext (subst []) (fun c => c) subst_nil cur, List.map_id']
  | cons m rest ih =>
      intro cur hnd
      rw [List.map_cons, List.nodup_cons] at hnd
      obtain ⟨hm, hrest⟩ := hnd
      have hmrest : ∀ n ∈ rest, (n.id == m.id) = false := by
        intro n hn
        rw [beq_eq_false_iff_ne]
        intro he
        exact hm (he ▸ List.mem_map_of_mem Msg.id hn)
      rw [add_messages_cons, List.filter_cons]
      cases hA : cur.any (fun c => c.id == m.id) with
      | true =>
          rw [upsert_of_any cur m hA, ih (cur.map (repl m)) hrest, List.map_map]
          have hmap : cur.map (subst rest ∘ repl m) = cur.map (subst (m :: rest)) := by
            apply map_ext
            intro c
            show subst rest (repl m c) = subst (m :: rest) c
            cases hc : c.id == m.id with
            | true =>
                have h1 : repl m c = m := by simp [repl, hc]
                have h2 : (m.id == c.id) = true :=
                  beq_iff_eq.mpr (beq_iff_eq.mp hc).symm
                rw [h1, subst_cons_pos m rest c h2]
                exact subst_absent rest m hmrest
            | false =>
                have h1 : repl m c = c := by simp [repl, hc]
                have h2 : (m.id == c.id) = false := by
                  rw [beq_eq_false_iff_ne]
                  intro he
                  exact absurd (beq_iff_eq.mpr he.symm) (by simp [hc])
                rw [h1, subst_cons_neg m rest c h2]
          have hfil : rest.filter
                (fun n => !((cur.map (repl m)).any (fun c => c.id == n.id))) =
              rest.filter (fun n => !(cur.any (fun c => c.id == n.id))) := by
            apply filter_ext_mem
            intro n _
            rw [any_map_repl]
          rw [hmap, hfil]
          simp [hA]
      | false =>
          rw [upsert_of_not_any cur m hA, ih (cur ++ [m]) hrest, List.map_append]
          have hsm : subst rest m = m := subst_absent rest m hmrest
          have hallc : ∀ c ∈ cur, (c.id == m.id) = false :=
            fun c hc => by
              cases h : c.id == m.id with
              | true =>
                  exact absurd
                    (show (cur.any fun x => x.id == m.id) = true from
                      List.any_eq_true.mpr ⟨c, hc, h⟩)
                    (by simp [hA])
              | false => rfl
          have hmap : cur.map (subst rest) = cur.map (subst (m :: rest)) := by
            apply map_ext_mem
            intro c hc
            have h2 : (m.id == c.id) = false := by
              rw [beq_eq_false_iff_ne]
              intro he
              exact absurd (beq_iff_eq.mpr he.symm) (by simp [hallc c hc])
            rw [subst_cons_neg m rest c h2]
          have hfil : rest.filter
                (fun n => !((cur ++ [m]).any (fun c => c.id == n.id))) =
              rest.filter (fun n => !(cur.any (fun c => c.id == n.id))) := by
            apply filter_ext_mem
            intro n hn
            rw [List.any_append]
            simp [beq_symm_false (hmrest n hn)]
          rw [hfil]
          simp only [List.map_cons, List.map_nil, hsm, hA]
          rw [hmap]
          simp

theorem add_messages_nil_left (inc : List Msg)
    (h : (inc.map Msg.id).Nodup) : add_messages [] inc = inc := by
  rw [add_messages_closed inc [] h]
  simp

theorem initState_eq (seed : Update)
    (h : (seed.messages.map Msg.id).Nodup) :
    initState seed = ⟨seed.messages, seed.analyses⟩ := by
  unfold initState mergeUpdate schemaInitialState concat
  rw [add_messages_nil_left seed.messages h]
  rfl

theorem invokeAll_one (g : CompiledGraph NodeFn) (s : State) (b : Branch)
    (c : Command) (h : invoke g s b = some c) :
    invokeAll g s [b] = some [c] := by
  unfold invokeAll
  rw [h]
  rfl

theorem mergeAll_one (s : State) (c : Command) :
    mergeAll s [c] = mergeUpdate s c.update := rfl

theorem routeAll_terminal (c : Command) (h : c.routing = Routing.terminal) :
    routeAll [c] = [] := by
  unfold routeAll
  rw [List.foldl_cons, h]
  rfl

theorem invoke_entry (g : CompiledGraph NodeFn) (s : State) (n : String)
    (f : State → Command) (h : lookupNode g n = some (NodeFn.stateFn f)) :
    invoke g s (Branch.stateBranch n) = some (f s) := by
  simp [invoke, h]

theorem stepRun_entry (g : CompiledGraph NodeFn) (s : State)
    (f : State → Command)
    (h : lookupNode g g.entry = some (NodeFn.stateFn f)) :
    stepRun g s [Branch.stateBranch g.entry] =
      some (mergeUpdate s (f s).update, routeAll [f s]) := by
  unfold stepRun
  rw [invokeAll_one g s _ (f s) (invoke_entry g s g.entry f h)]
  rfl

theorem foldl_addBranch_tasks (sends : List Send) :
    ∀ acc : List Branch,
      (sends.map (fun sd => Branch.taskBranch sd.dest sd.task)).foldl
          addBranch acc =
        acc ++ sends.map (fun sd => Branch.taskBranch sd.dest sd.task) := by
  induction sends with
  | nil => intro acc; simp
  | cons sd rest ih =>
      intro acc
      rw [List.map_cons, List.foldl_cons]
      show (rest.map (fun sd => Branch.taskBranch sd.dest sd.task)).foldl
          addBranch (acc ++ [Branch.taskBranch sd.dest sd.task]) = _
      rw [ih]
      simp

theorem routeAll_fanout (c : Command) (sends : List Send)
    (h : c.routing = Routing.fanOut sends) :
    routeAll [c] =
      sends.map (fun sd => Branch.taskBranch sd.dest sd.task) := by
  unfold routeAll
  rw [List.foldl_cons, h]
  show (sends.map (fun sd => Branch.taskBranch sd.dest sd.task)).foldl
      addBranch [] = _
  rw [foldl_addBranch_tasks]
  rfl

theorem invoke_worker (g : CompiledGraph NodeFn) (s : State) (w : String)
    (wf : ResearchTask → Command) (t : ResearchTask)
    (h : lookupNode g w = some (NodeFn.taskFn wf)) :
    invoke g s (Branch.taskBranch w t) = some (wf t) := by
  simp [invoke, h]

theorem invokeAll_workers (g : CompiledGraph NodeFn) (s : State)
    (w : String) (wf : ResearchTask → Command)
    (hw : lookupNode g w = some (NodeFn.taskFn wf)) :
    ∀ sends : List Send, (∀ sd ∈ sends, sd.dest = w) →
      invokeAll g s (sends.map (fun sd => Branch.taskBranch sd.dest sd.task)) =
        some (sends.map (fun sd => wf sd.task)) := by
  intro sends
  induction sends with
  | nil => intro _; rfl
  | cons sd rest ih =>
      intro hdest
      rw [List.map_cons]
      unfold invokeAll
      rw [hdest sd (List.mem_cons_self sd rest), invoke_worker g s w wf sd.task hw,
        ih (fun x hx => hdest x (List.mem_cons_of_mem sd hx))]
      rfl

theorem foldl_route_stable (j : String) :
    ∀ (cmds : List Command) (acc : List Branch),
      (∀ c ∈ cmds, c.routing = Routing.single j) →
      acc.any (isStateBranchFor j) = true →
      cmds.foldl (fun acc c => (routeOne c.routing).foldl addBranch acc) acc =
        acc := by
  intro cmds
  induction cmds with
  | nil => intro acc _ _; rfl
  | cons c rest ih =>
      intro acc h hacc
      rw [List.foldl_cons, h c (List.mem_cons_self c rest)]
      have hstep : (routeOne (Routing.single j)).foldl addBranch acc = acc := by
        show addBranch acc (Branch.stateBranch j) = acc
        simp [addBranch, hacc]
      rw [hstep]
      exact ih acc (fun x hx => h x (List.mem_cons_of_mem c hx)) hacc

theorem routeAll_join (cmds : List Command) (j : String)
    (h : ∀ c ∈ cmds, c.routing = Routing.single j) (hne : cmds ≠ []) :
    routeAll cmds = [Branch.stateBranch j] := by
  cases cmds with
  | nil => exact absurd rfl hne
  | cons c rest =>
      unfold routeAll
      rw [List.foldl_cons, h c (List.mem_cons_self c rest)]
      have hstep : (routeOne (Routing.single j)).foldl addBranch [] =
          [Branch.stateBranch j] := by
        show addBranch [] (Branch.stateBranch j) = _
        simp [addBranch]
      rw [hstep]
      exact foldl_route_stable j rest [Branch.stateBranch j]
        (fun x hx => h x (List.mem_cons_of_mem c hx))
        (by simp [isStateBranchFor])

theorem mergeAll_analyses (cmds : List Command) :
    ∀ s : State,
      (mergeAll s cmds).analyses =
        s.analyses ++ (cmds.map (fun c => c.update.analyses)).flatten := by
  induction cmds with
  | nil => intro s; simp [mergeAll]
  | cons c rest ih =>
      intro s
      show (mergeAll (mergeUpdate s c.update) rest).analyses = _
      rw [ih (mergeUpdate s c.update)]
      show (concat s.analyses c.update.analyses) ++ _ = _
      unfold concat
      rw [List.map_cons, List.flatten_cons, List.append_assoc]

theorem sum_map_one {α : Type} (f : α → Nat) :
    ∀ l : List α, (∀ x ∈ l, f x = 1) → (l.map f).sum = l.length := by
  intro l
  induction l with
  | nil => intro _; rfl
  | cons a t ih =>
      intro h
      rw [List.map_cons, List.sum_cons, h a (List.mem_cons_self a t),
        ih (fun x hx => h x (List.mem_cons_of_mem a hx)), List.length_cons]
      omega

theorem mergeAll_length_perm (cmds cmds' : List Command) (s : State)
    (hperm : cmds'.Perm cmds)
    (hone : ∀ c ∈ cmds, c.update.analyses.length = 1)
    (hs : s.analyses = []) :
    (mergeAll s cmds').analyses.length = cmds.length := by
  rw [mergeAll_analyses, hs, List.nil_append, List.length_flatten, List.map_map]
  have h1 : (cmds'.map (List.length ∘ fun c => c.update.analyses)).sum =
      (cmds.map (List.length ∘ fun c => c.update.analyses)).sum :=
    (hperm.map (List.length ∘ fun c => c.update.analyses)).sum_eq
  rw [h1]
  exact sum_map_one _ cmds (fun c hc => hone c hc)

theorem runLoop_done (g : CompiledGraph NodeFn) (fuel : Nat) (s : State) :
    runLoop g fuel s [] = some s := by
  cases fuel <;> rfl

theorem runLoop_step (g : CompiledGraph NodeFn) (fuel : Nat) (s : State)
    (b : Branch) (bs : List Branch) (s' : State) (next : List Branch)
    (h : stepRun g s (b :: bs) = some (s', next)) :
    runLoop g (fuel + 1) s (b :: bs) = runLoop g fuel s' next := by
  show (match stepRun g s (b :: bs) with
    | none => none
    | some (s', next) => runLoop g fuel s' next) = _
  rw [h]

/-- Concrete fixture for the terminal-routing run: an entry node whose
command routes to the terminal marker. -/
def wFnC3 : State → Command :=
  fun _ => ⟨⟨[⟨5, "done"⟩], []⟩, Routing.terminal⟩

/-- Concrete one-node graph whose entry is the terminal-routing node. -/
def wGraphC3 : CompiledGraph NodeFn :=
  ⟨[("orchestrator", NodeFn.stateFn wFnC3)], "orchestrator"⟩

/-- Concrete initial state for the terminal-routing run. -/
def wStateC3 : State := ⟨[⟨0, "hi"⟩], []⟩

/-- Concrete fixture, fan-out run: first research task. -/
def wTaskA : ResearchTask := ⟨"tech", "sector overview"⟩

/-- Concrete fixture, fan-out run: second research task. -/
def wTaskB : ResearchTask := ⟨"risk", "exposure analysis"⟩

/-- Concrete fixture, fan-out run: the orchestrator's two dispatches. -/
def wSends : List Send := [⟨"worker", wTaskA⟩, ⟨"worker", wTaskB⟩]

/-- Concrete fixture, fan-out run: the entry node fans out to `wSends`. -/
def wOrchFn : State → Command :=
  fun _ => ⟨⟨[⟨1, "plan"⟩], []⟩, Routing.fanOut wSends⟩

/-- Concrete fixture, fan-out run: each worker contributes one analysis and
routes to the synthesizer. -/
def wWorkerFn : ResearchTask → Command :=
  fun t => ⟨⟨[], [t.topic]⟩, Routing.single "synthesizer"⟩

/-- Concrete fixture, fan-out run: the synthesizer ends the workflow. -/
def wSynthFn : State → Command :=
  fun _ => ⟨⟨[⟨9, "report"⟩], []⟩, Routing.terminal⟩

/-- Concrete three-node graph: orchestrator, worker, synthesizer. -/
def wGraphC4 : CompiledGraph NodeFn :=
  ⟨[("orchestrator", NodeFn.stateFn wOrchFn),
    ("worker", NodeFn.taskFn wWorkerFn),
    ("synthesizer", NodeFn.stateFn wSynthFn)], "orchestrator"⟩

/-- Concrete initial state for the fan-out run. -/
def wStateC4 : State := ⟨[⟨0, "request"⟩], []⟩

/-- Concrete fixture for the orchestrator frame claim: its input state. -/
def wStC10 : State := ⟨[⟨0, "q"⟩], ["old analysis"]⟩

/-- Concrete fixture for the orchestrator frame claim: an in-scope
decision with one research task. -/
def wDecC10 : OrchestratorDecision := ⟨"resp", true, some [⟨"t", "d"⟩]⟩

/-- Concrete fixture for the orchestrator frame claim: the command the
orchestrator returns on `wStC10` and `wDecC10`. -/
def wCmdC10 : Command :=
  ⟨⟨[⟨3, "resp"⟩], []⟩, Routing.fanOut [⟨"worker", ⟨"t", "d"⟩⟩]⟩

/-- C1: the claim says an orchestrator decision with `in_scope = true` and
an empty or absent `research_tasks` list makes `orchestrator_node` abort
the run with a `MalformedDecisionError`.  Evaluating the source model at
those inputs shows otherwise: with `research_tasks = some []` the node
returns a successful `Command` whose fan-out list is empty — zero workers
are spawned silently, no error of any kind — and with
`research_tasks = none` the `goto` list comprehension raises a plain
`TypeError`, not a `MalformedDecisionError` (no such error type exists in
the source). -/
theorem C1_in_scope_empty_tasks_behavior :
    orchestrator_node ⟨[⟨0, "req"⟩], []⟩ ⟨"plan", true, some []⟩ 1 =
      Except.ok ⟨⟨[⟨1, "plan"⟩], []⟩, Routing.fanOut []⟩ ∧
    orchestrator_node ⟨[⟨0, "req"⟩], []⟩ ⟨"plan", true, none⟩ 1 =
      Except.error PyError.typeError :=
  ⟨rfl, rfl⟩

/-- C2: the messages reducer upserts by id — in closed form, for incoming
batches with pairwise-distinct ids, the merged list is the current list
with every id-matched record replaced in place (a position-preserving map)
followed by exactly the incoming records with unseen ids, in their
incoming order (a filter). -/
theorem C2_add_messages_closed_form (cur inc : List Msg)
    (h : (inc.map Msg.id).Nodup) :
    add_messages cur inc =
      cur.map (subst inc) ++
        inc.filter (fun m => !(cur.any (fun c => c.id == m.id))) :=
  add_messages_closed inc cur h

/-- C2 witness: the closed form evaluated on a concrete current list and a
concrete incoming batch that both replaces (id 1) and appends (id 3). -/
theorem C2_add_messages_closed_form_witness :
    (([⟨1, "b"⟩, ⟨3, "c"⟩] : List Msg).map Msg.id).Nodup ∧
    add_messages [⟨1, "a"⟩, ⟨2, "x"⟩] [⟨1, "b"⟩, ⟨3, "c"⟩] =
      ([⟨1, "a"⟩, ⟨2, "x"⟩] : List Msg).map (subst [⟨1, "b"⟩, ⟨3, "c"⟩]) ++
        ([⟨1, "b"⟩, ⟨3, "c"⟩] : List Msg).filter
          (fun m => !(([⟨1, "a"⟩, ⟨2, "x"⟩] : List Msg).any
            (fun c => c.id == m.id))) :=
  ⟨by decide,
    C2_add_messages_closed_form [⟨1, "a"⟩, ⟨2, "x"⟩] [⟨1, "b"⟩, ⟨3, "c"⟩]
      (by decide)⟩

/-- C3: for every initial state, a run whose entry node returns terminal
routing ends after one Step with final state equal to the initial state
merged exactly once (via the field reducers) with the entry node's own
update, and the entry command spawns zero further branches. -/
theorem C3_terminal_run (g : CompiledGraph NodeFn) (f : State → Command)
    (s0 : State) (fuel : Nat)
    (h1 : lookupNode g g.entry = some (NodeFn.stateFn f))
    (h2 : (f s0).routing = Routing.terminal) :
    runLoop g (fuel + 1) s0 [Branch.stateBranch g.entry] =
      some (mergeUpdate s0 (f s0).update) ∧
    routeAll [f s0] = [] := by
  have hroute : routeAll [f s0] = [] := routeAll_terminal (f s0) h2
  have hstep : stepRun g s0 [Branch.stateBranch g.entry] =
      some (mergeUpdate s0 (f s0).update, []) := by
    rw [stepRun_entry g s0 f h1, hroute]
  exact ⟨(runLoop_step g fuel s0 _ [] _ [] hstep).trans
    (runLoop_done g fuel (mergeUpdate s0 (f s0).update)), hroute⟩

/-- C3 witness: the one-node graph `wGraphC3`, whose entry routes to
terminal, run from the concrete state `wStateC3`. -/
theorem C3_terminal_run_witness :
    lookupNode wGraphC3 wGraphC3.entry = some (NodeFn.stateFn wFnC3) ∧
    (wFnC3 wStateC3).routing = Routing.terminal ∧
    (runLoop wGraphC3 1 wStateC3 [Branch.stateBranch wGraphC3.entry] =
        some (mergeUpdate wStateC3 (wFnC3 wStateC3).update) ∧
      routeAll [wFnC3 wStateC3] = []) :=
  ⟨rfl, rfl, C3_terminal_run wGraphC3 wFnC3 wStateC3 0 rfl rfl⟩

/-- C4: a run whose entry node fans out to a nonempty list of worker
dispatches (all to the same task node, each contributing exactly one
`analyses` entry and routing to the join node) reaches the join node with
`analyses` of length exactly the number of dispatches: the entry Step
spawns one task branch per dispatch, the worker Step's commands schedule
the join node exactly once, and the merged `analyses` length equals the
dispatch count for every merge order (permutation) of the worker
commands. -/
theorem C4_fanout_join (g : CompiledGraph NodeFn) (f : State → Command)
    (wf : ResearchTask → Command) (w j : String) (sends : List Send)
    (s0 : State)
    (h1 : lookupNode g g.entry = some (NodeFn.stateFn f))
    (h2 : (f s0).routing = Routing.fanOut sends)
    (h3 : ∀ sd ∈ sends, sd.dest = w)
    (h4 : lookupNode g w = some (NodeFn.taskFn wf))
    (h5 : ∀ t, ((wf t).update.analyses).length = 1)
    (h6 : ∀ t, (wf t).routing = Routing.single j)
    (h7 : s0.analyses = [])
    (h8 : (f s0).update.analyses = [])
    (h9 : sends ≠ []) :
    stepRun g s0 [Branch.stateBranch g.entry] =
      some (mergeUpdate s0 (f s0).update,
        sends.map (fun sd => Branch.taskBranch sd.dest sd.task)) ∧
    invokeAll g (mergeUpdate s0 (f s0).update)
        (sends.map (fun sd => Branch.taskBranch sd.dest sd.task)) =
      some (sends.map (fun sd => wf sd.task)) ∧
    routeAll (sends.map (fun sd => wf sd.task)) = [Branch.stateBranch j] ∧
    ∀ cmds' : List Command,
      cmds'.Perm (sends.map (fun sd => wf sd.task)) →
      ((mergeAll (mergeUpdate s0 (f s0).update) cmds').analyses).length =
        sends.length := by
  refine ⟨?_, ?_, ?_, ?_⟩
  · rw [stepRun_entry g s0 f h1, routeAll_fanout (f s0) sends h2]
  · exact invokeAll_workers g _ w wf h4 sends h3
  · refine routeAll_join _ j ?_ ?_
    · intro c hc
      rcases List.mem_map.mp hc with ⟨sd, _, rfl⟩
      exact h6 sd.task
    · intro hemp
      exact h9 (List.map_eq_nil_iff.mp hemp)
  · intro cmds' hperm
    have hone : ∀ c ∈ sends.map (fun sd => wf sd.task),
        c.update.analyses.length = 1 := by
      intro c hc
      rcases List.mem_map.mp hc with ⟨sd, _, rfl⟩
      exact h5 sd.task
    have hs1 : (mergeUpdate s0 (f s0).update).analyses = [] := by
      show concat s0.analyses (f s0).update.analyses = []
      rw [h7, h8]
      rfl
    rw [mergeAll_length_perm _ _ _ hperm hone hs1, List.length_map]

/-- C4 witness: the three-node graph `wGraphC4` with two dispatches; the
merged `analyses` length is 2 also when the two worker commands are merged
in swapped order. -/
theorem C4_fanout_join_witness :
    (∀ sd ∈ wSends, sd.dest = "worker") ∧ wSends ≠ [] ∧
    stepRun wGraphC4 wStateC4 [Branch.stateBranch wGraphC4.entry] =
      some (mergeUpdate wStateC4 (wOrchFn wStateC4).update,
        wSends.map (fun sd => Branch.taskBranch sd.dest sd.task)) ∧
    routeAll (wSends.map (fun sd => wWorkerFn sd.task)) =
      [Branch.stateBranch "synthesizer"] ∧
    ((mergeAll (mergeUpdate wStateC4 (wOrchFn wStateC4).update)
        [wWorkerFn wTaskB, wWorkerFn wTaskA]).analyses).length =
      wSends.length :=
  ⟨by decide, by decide,
    (C4_fanout_join wGraphC4 wOrchFn wWorkerFn "worker" "synthesizer"
      wSends wStateC4 rfl rfl (by decide) rfl (fun _ => rfl) (fun _ => rfl)
      rfl rfl (by decide)).1,
    (C4_fanout_join wGraphC4 wOrchFn wWorkerFn "worker" "synthesizer"
      wSends wStateC4 rfl rfl (by decide) rfl (fun _ => rfl) (fun _ => rfl)
      rfl rfl (by decide)).2.2.1,
    (C4_fanout_join wGraphC4 wOrchFn wWorkerFn "worker" "synthesizer"
      wSends wStateC4 rfl rfl (by decide) rfl (fun _ => rfl) (fun _ => rfl)
      rfl rfl (by decide)).2.2.2 [wWorkerFn wTaskB, wWorkerFn wTaskA]
      (List.Perm.swap (wWorkerFn wTaskA) (wWorkerFn wTaskB) [])⟩

/-- C5 counterexample: the claim says `set_entry_point(name)` fails with
`UnknownNodeError` whenever `name` is not yet registered.  On the empty
builder — exactly the situation of the source, which sets the entry point
before registering any node — `set_entry_point` succeeds. -/
theorem C5_counterexample_entry_accepted :
    set_entry_point (StateGraph.new Unit) "orchestrator" =
      Except.ok ⟨[], some "orchestrator"⟩ :=
  rfl

/-- C5 (amended): `set_entry_point` itself always succeeds, merely
recording the name; the `UnknownNodeError` for an entry point that was
never registered surfaces at `compile` — still build time, never run
time — and the source's own build order (entry point first, node second,
then compile) succeeds. -/
theorem C5_entry_validated_at_compile (b : StateGraph Unit) (name : String)
    (h : b.nodes.any (fun p => p.fst == name) = false) :
    set_entry_point b name = Except.ok ⟨b.nodes, some name⟩ ∧
    compile (⟨b.nodes, some name⟩ : StateGraph Unit) =
      Except.error (BuildError.unknownNode name) ∧
    notebookBuild = Except.ok ⟨[("orchestrator", ())], "orchestrator"⟩ := by
  refine ⟨rfl, ?_, rfl⟩
  unfold compile
  simp [h]

/-- C5 witness: the amended claim at the empty builder and the source's
entry-point name. -/
theorem C5_entry_validated_at_compile_witness :
    ((StateGraph.new Unit).nodes.any
        (fun p => p.fst == "orchestrator") = false) ∧
    (set_entry_point (StateGraph.new Unit) "orchestrator" =
        Except.ok ⟨[], some "orchestrator"⟩ ∧
      compile (⟨[], some "orchestrator"⟩ : StateGraph Unit) =
        Except.error (BuildError.unknownNode "orchestrator") ∧
      notebookBuild = Except.ok ⟨[("orchestrator", ())], "orchestrator"⟩) :=
  ⟨rfl, C5_entry_validated_at_compile (StateGraph.new Unit) "orchestrator" rfl⟩

/-- C6: a run's state is initialized as the schema's declared initial
values merged — through the ordinary per-field reducers — with the
caller-supplied seed (first conjunct, the definition of `initState`); and
because both initial values are empty, the resulting state carries the
seed verbatim, so a caller-supplied human request is the first `messages`
entry (second conjunct). -/
theorem C6_init_state_from_seed (seed : Update)
    (h : (seed.messages.map Msg.id).Nodup) :
    initState seed = mergeUpdate schemaInitialState seed ∧
    initState seed = ⟨seed.messages, seed.analyses⟩ :=
  ⟨rfl, initState_eq seed h⟩

/-- C6 witness: seeding the run with one human request message makes that
message the whole (hence first) `messages` entry. -/
theorem C6_init_state_from_seed_witness :
    (([⟨0, "define an investment strategy"⟩] : List Msg).map Msg.id).Nodup ∧
    (initState ⟨[⟨0, "define an investment strategy"⟩], []⟩ =
        mergeUpdate schemaInitialState
          ⟨[⟨0, "define an investment strategy"⟩], []⟩ ∧
      initState ⟨[⟨0, "define an investment strategy"⟩], []⟩ =
        ⟨[⟨0, "define an investment strategy"⟩], []⟩) :=
  ⟨by decide,
    C6_init_state_from_seed ⟨[⟨0, "define an investment strategy"⟩], []⟩
      (by decide)⟩

/-- C7 counterexample: the claim asserts there is no pair of inputs for
which swapping the arguments of `concat` yields the same result; the pair
`(["a"], ["a", "a"])` — two different lists — is such a pair. -/
theorem C7_counterexample_commuting_pair :
    concat ["a"] ["a", "a"] = concat ["a", "a"] ["a"] :=
  rfl

/-- C7 (amended): `concat` is associative and returns `current` followed
by `incoming` verbatim with no deduplication; it is not commutative in
general — there exist inputs where swapping the arguments changes the
result — though particular pairs do commute. -/
theorem C7_concat_assoc_not_comm (A B C : List String) :
    concat (concat A B) C = concat A (concat B C) ∧
    concat A B = A ++ B ∧
    ∃ X Y : List String, concat X Y ≠ concat Y X :=
  ⟨List.append_assoc A B C, rfl, ⟨["a"], ["b"], by decide⟩⟩

/-- C8: re-applying the messages reducer with the identical incoming batch
is a no-op — for all current and incoming lists, with no distinctness
assumption. -/
theorem C8_add_messages_idempotent (A B : List Msg) :
    add_messages (add_messages A B) B = add_messages A B :=
  add_messages_idem A B

/-- C9: whenever the CIA decision has `in_scope = false`, the orchestrator
routes straight to the terminal marker (the source's `END`): the returned
command carries only the response message and terminal routing, no `Send`
is produced, and `research_tasks` is never inspected — the conclusion is
the same for a `none` and for a nonempty task list. -/
theorem C9_out_of_scope_goes_end (s : State) (d : OrchestratorDecision)
    (fresh : Nat) (hscope : d.in_scope = false) (hmsg : s.messages ≠ []) :
    orchestrator_node s d fresh =
      Except.ok ⟨⟨[⟨fresh, d.response⟩], []⟩, Routing.terminal⟩ := by
  obtain ⟨ms, as⟩ := s
  cases ms with
  | nil => exact absurd rfl hmsg
  | cons a t => simp [orchestrator_node, hscope]

/-- C9 witness: an out-of-scope decision carrying a nonempty
`research_tasks` list still routes to terminal with zero workers. -/
theorem C9_out_of_scope_goes_end_witness :
    ((⟨"off topic", false, some [⟨"t", "d"⟩]⟩ :
        OrchestratorDecision).in_scope = false) ∧
    ((⟨[⟨0, "hello"⟩], []⟩ : State).messages ≠ []) ∧
    orchestrator_node ⟨[⟨0, "hello"⟩], []⟩
        ⟨"off topic", false, some [⟨"t", "d"⟩]⟩ 7 =
      Except.ok ⟨⟨[⟨7, "off topic"⟩], []⟩, Routing.terminal⟩ :=
  ⟨rfl, by decide,
    C9_out_of_scope_goes_end ⟨[⟨0, "hello"⟩], []⟩
      ⟨"off topic", false, some [⟨"t", "d"⟩]⟩ 7 rfl (by decide)⟩

/-- C10: every command the orchestrator returns updates only the
`messages` field — its update's `analyses` component is empty, so merging
the command's update leaves the state's `analyses` unchanged, in the
in-scope and the out-of-scope branch alike. -/
theorem C10_orchestrator_touches_only_messages (s : State)
    (d : OrchestratorDecision) (fresh : Nat) (cmd : Command)
    (h : orchestrator_node s d fresh = Except.ok cmd) :
    cmd.update.analyses = [] ∧
    (mergeUpdate s cmd.update).analyses = s.analyses := by
  unfold orchestrator_node at h
  cases he : s.messages.isEmpty with
  | true => simp [he] at h
  | false =>
      cases hsc : d.in_scope with
      | false =>
          simp [he, hsc] at h
          rw [← h]
          simp [mergeUpdate, concat]
      | true =>
          cases hrt : d.research_tasks with
          | none => simp [he, hsc, hrt] at h
          | some tasks =>
              simp [he, hsc, hrt] at h
              rw [← h]
              simp [mergeUpdate, concat]

/-- C10 witness: the orchestrator's command on a concrete in-scope
decision leaves the concrete state's `analyses` untouched. -/
theorem C10_orchestrator_touches_only_messages_witness :
    orchestrator_node wStC10 wDecC10 3 = Except.ok wCmdC10 ∧
    (wCmdC10.update.analyses = [] ∧
      (mergeUpdate wStC10 wCmdC10.update).analyses = wStC10.analyses) :=
  ⟨rfl, C10_orchestrator_touches_only_messages wStC10 wDecC10 3 wCmdC10 rfl⟩

end AMLD
